import Mathlib

/-!
Shallow embedding of `src/deeplio/datasets/kitti.py` (classes `KittiRawData`
and `Kitti`).  File contents, decoded images and parsed OXTS packets are
abstracted behind function fields of `Session`; timestamps are modelled as
integers (only their linear order matters to the code).  Python runtime
failures (IndexError, NameError, UnboundLocalError) are modelled with an
explicit error type, and functions that can fail return `Except PyErr`.
-/

/-- Python runtime errors that the modelled code can raise. -/
inductive PyErr where
  | indexError
  | nameError
  | unboundLocalError
  deriving DecidableEq, Repr

/-- Abstract decoded range image (output of the external projection
collaborator `LaserScan` + `do_range_projection` + `np.dstack`). -/
def Image := List Int
deriving instance DecidableEq, Repr for Image

/-- One parsed OXTS packet: three linear accelerations and three angular
rates, as used by `get_data` (`packet.ax .. packet.wz`). -/
structure OxtPacket where
  ax : Int
  ay : Int
  az : Int
  wx : Int
  wy : Int
  wz : Int
  deriving DecidableEq, Repr

/-- One parsed OXTS entry, as returned by
`utils.load_oxts_packets_and_poses` for a single file: the packet and the
flattened pose `T_w_imu.flatten()`. -/
structure Oxt where
  packet : OxtPacket
  T_w_imu : List Int
  deriving DecidableEq, Repr

/-- One `KittiRawData` session after construction: the sorted file lists
(file identities abstracted to `Nat`), the two timestamp series, and the
external decoding collaborators (`utils.load_velo_scan`, the range-image
projector, `utils.load_oxts_packets_and_poses`). -/
structure Session where
  velo_files : List Nat
  oxts_files : List Nat
  timestamps_velo : List Int
  timestamps_imu : List Int
  decode_velo : Nat → Image
  load_velo_file : Nat → List Int
  decode_oxt : Nat → Oxt

/-- Python/NumPy sequence indexing: a negative index wraps around by the
sequence length; anything still out of bounds raises IndexError. -/
def pyIndex {α : Type} (xs : List α) (i : Int) : Except PyErr α :=
  let j : Int := if i < 0 then (xs.length : Int) + i else i
  if 0 ≤ j then
    match xs[j.toNat]? with
    | some v => Except.ok v
    | none => Except.error PyErr.indexError
  else Except.error PyErr.indexError

/-- Python `range(a, b)` over integers (empty when b ≤ a). -/
def intRange (a b : Int) : List Int :=
  (List.range (b - a).toNat).map (fun k => a + (k : Int))

/-- KittiRawData.__len__: `len(self.velo_files)`. -/
def Session.len (s : Session) : Nat := s.velo_files.length

/-- KittiRawData.get_velo: `utils.load_velo_scan(self.velo_files[idx])`. -/
def get_velo (s : Session) (idx : Int) : Except PyErr (List Int) :=
  (pyIndex s.velo_files idx).map s.load_velo_file

/-- KittiRawData.get_velo_image: opens `self.velo_files[idx]`, projects it
to a range image and stacks the channels; the projection pipeline is the
abstract collaborator `decode_velo`. -/
def get_velo_image (s : Session) (idx : Int) : Except PyErr Image :=
  (pyIndex s.velo_files idx).map s.decode_velo

/-- KittiRawData._load_oxt_lazy: reads `self.oxts_files[index]` and parses
it; `oxt[0]` of the one-element parse result. -/
def load_oxt_lazy (s : Session) (i : Nat) : Except PyErr Oxt :=
  match s.oxts_files[i]? with
  | some f => Except.ok (s.decode_oxt f)
  | none => Except.error PyErr.indexError

/-- The index selection inside KittiRawData.get_data:
`mask = ((self.timestamps_imu >= velo_start_ts) & (self.timestamps_imu < velo_stop_ts))`
followed by `np.argwhere(mask).flatten()`: the ascending list of positions
whose timestamp lies in the half-open interval [t0, t1). -/
def selectIndices (ts : List Int) (t0 t1 : Int) : List Nat :=
  (List.range ts.length).filter (fun i => t0 ≤ ts.getD i 0 && ts.getD i 0 < t1)

/-- Result dictionary of KittiRawData.get_data:
`{'images': images, 'imu': imu_values, 'ground-truth': gt}`. -/
structure GetDataResult where
  images : List Image
  imu : List (List Int)
  gt : List (List Int)
  deriving DecidableEq, Repr

/-- The two boundary timestamps read at the top of KittiRawData.get_data:
`velo_start_ts = self.timestamps_velo[start_index]` and
`velo_stop_ts = self.timestamps_velo[start_index + length - 1]`. -/
def windowInterval (s : Session) (start_index : Int) (length : Nat) :
    Except PyErr (Int × Int) :=
  match pyIndex s.timestamps_velo start_index with
  | Except.error e => Except.error e
  | Except.ok velo_start_ts =>
    match pyIndex s.timestamps_velo (start_index + (length : Int) - 1) with
    | Except.error e => Except.error e
    | Except.ok velo_stop_ts => Except.ok (velo_start_ts, velo_stop_ts)

/-- The IMU index selection performed by a window query: the mask-and-
argwhere step of get_data applied to the window interval. -/
def selectedOf (s : Session) (start_index : Int) (length : Nat) :
    Except PyErr (List Nat) :=
  (windowInterval s start_index length).map
    (fun p => selectIndices s.timestamps_imu p.1 p.2)

/-- KittiRawData.get_data.  On the branch where no IMU timestamp falls in
the window interval, the source prints a warning and sets
`imu_values = [0.] * 6`, but the local `gt` is assigned only on the other
branch, so building the result dictionary raises UnboundLocalError. -/
def get_data (s : Session) (start_index : Int) (length : Nat) :
    Except PyErr GetDataResult :=
  match windowInterval s start_index length with
  | Except.error e => Except.error e
  | Except.ok (velo_start_ts, velo_stop_ts) =>
    match (intRange start_index (start_index + (length : Int))).mapM
        (fun idx => get_velo_image s idx) with
    | Except.error e => Except.error e
    | Except.ok images =>
      let indices := selectIndices s.timestamps_imu velo_start_ts velo_stop_ts
      if indices.isEmpty then
        Except.error PyErr.unboundLocalError
      else
        match indices.mapM (fun i => load_oxt_lazy s i) with
        | Except.error e => Except.error e
        | Except.ok otxs =>
          Except.ok
            { images := images
              imu := otxs.map (fun o =>
                [o.packet.ax, o.packet.ay, o.packet.az,
                 o.packet.wx, o.packet.wy, o.packet.wz])
              gt := otxs.map (fun o => o.T_w_imu) }

/-- Configuration as the Kitti constructor consumes it: `sequence-size`,
and the list of sessions that the (date, drive) loop of `Kitti.__init__`
constructs from `ds_config[ds_type]` (session construction itself is disk
I/O, an external collaborator). -/
structure Config where
  sequenceSize : Nat
  sessions : List Session

/-- State of a constructed `Kitti` dataset object. -/
structure KittiState where
  dataset : List Session
  length_each_drive : List Nat
  bins : List (Int × Int)
  seq_size : Nat
  length : Int

/-- The bin-building loop of Kitti.__init__: starting from
`last_bin_end = -1`, each session of length `l` contributes the bin
`[last_bin_end + 1, last_bin_end + 1 + l - seq_size]`. -/
def mkBinsAux (seq_size : Nat) : Int → List Nat → List (Int × Int)
  | _, [] => []
  | last_bin_end, l :: ls =>
    let bin_start := last_bin_end + 1
    let bin_end := bin_start + (l : Int) - (seq_size : Int)
    (bin_start, bin_end) :: mkBinsAux seq_size bin_end ls

/-- Kitti.__init__.  The body resolves the free name `cfg` (the `config`
parameter is never read), so without a module-level binding of `cfg` the
constructor raises NameError; `globalCfg` models that module-level
binding.  `self.length = self.bins.flatten()[-1] + 1` raises IndexError
when no session was configured. -/
def kittiInit (globalCfg : Option Config) (config : Config) :
    Except PyErr KittiState :=
  match globalCfg with
  | none => Except.error PyErr.nameError
  | some cfg =>
    let sessions := cfg.sessions
    let lengths := sessions.map Session.len
    let bins := mkBinsAux cfg.sequenceSize (-1) lengths
    match bins.getLast? with
    | none => Except.error PyErr.indexError
    | some b =>
      Except.ok
        { dataset := sessions
          length_each_drive := lengths
          bins := bins
          seq_size := cfg.sequenceSize
          length := b.2 + 1 }

/-- The bin-search loop of Kitti.__getitem__ (enumerate over bins, break
at the first bin with `bin_start <= index <= bin_end`), carrying the
running enumeration counter. -/
def findBinAux (bins : List (Int × Int)) (index : Int) (k : Nat) :
    Option (Nat × Int) :=
  match bins with
  | [] => none
  | b :: rest =>
    if b.1 ≤ index ∧ index ≤ b.2 then some (k, index - b.1)
    else findBinAux rest index (k + 1)

/-- Bin resolution of Kitti.__getitem__: the drive number and local offset
of the first bin containing the index, if any. -/
def findBin (bins : List (Int × Int)) (index : Int) : Option (Nat × Int) :=
  findBinAux bins index 0

/-- Kitti.__getitem__.  When no bin contains the index the source prints
an error message and returns None (modelled `Except.ok none`); otherwise
it delegates to `get_data(idx, self.seq_size)` on the selected drive. -/
def kittiGetitem (st : KittiState) (index : Int) :
    Except PyErr (Option GetDataResult) :=
  match findBin st.bins index with
  | none => Except.ok none
  | some (num_drive, idx) =>
    match st.dataset[num_drive]? with
    | none => Except.error PyErr.indexError
    | some ds => (get_data ds idx st.seq_size).map some

/-- Value of a list of decimal digits, most significant first (how
`%f` digits of `datetime.strptime` combine). -/
def digitsToNat (ds : List Nat) : Nat := ds.foldl (fun a d => 10 * a + d) 0

/-- Timestamp produced by `_load_timestamps` for one line: the parsed
date-and-seconds part (abstracted to a single number) and the microsecond
field parsed by `%f`. -/
structure ParsedTimestamp where
  secondsPart : Nat
  micro : Nat
  deriving DecidableEq, Repr

/-- Character code of a newline, the last character of a timestamp line. -/
def newlineCode : Nat := 10

/-- KittiRawData._load_timestamps on one line whose sub-second field has
the digits `fracDigits` (nanosecond resolution, nine digits in the file):
`line[:-4]` drops the trailing newline and the last three digits, and
`strptime(..., %f)` reads the remaining digits as microseconds. -/
def loadTimestampLine (secondsPart : Nat) (fracDigits : List Nat) :
    ParsedTimestamp :=
  let line := fracDigits ++ [newlineCode]
  let kept := line.take (line.length - 4)
  { secondsPart := secondsPart, micro := digitsToNat kept }

/-- The instant a raw timestamp line denotes, in nanoseconds past its
seconds part. -/
def lineNanos (secondsPart : Nat) (fracDigits : List Nat) : Nat :=
  secondsPart * 1000000000 + digitsToNat fracDigits

/-- A parsed timestamp as an absolute microsecond count. -/
def parsedMicros (t : ParsedTimestamp) : Nat :=
  t.secondsPart * 1000000 + t.micro

/-- Sum of per-session addressable window counts, `l - seq_size + 1` over
the session lengths, in the integer arithmetic of the source. -/
def binSum (seq_size : Nat) (ls : List Nat) : Int :=
  (ls.map (fun l => (l : Int) - (seq_size : Int) + 1)).sum

/-! Helper lemmas. -/

theorem mem_selectIndices (ts : List Int) (t0 t1 : Int) (i : Nat) :
    i ∈ selectIndices ts t0 t1 ↔
      i < ts.length ∧ t0 ≤ ts.getD i 0 ∧ ts.getD i 0 < t1 := by
  simp [selectIndices, List.mem_filter, List.mem_range, and_assoc]

theorem selectIndices_sorted (ts : List Int) (t0 t1 : Int) :
    List.Sorted (· < ·) (selectIndices ts t0 t1) :=
  (List.sorted_lt_range ts.length).filter _

theorem pyIndex_nonneg {α : Type} (xs : List α) (i : Int) (v : α)
    (h0 : 0 ≤ i) (h : xs[i.toNat]? = some v) :
    pyIndex xs i = Except.ok v := by
  unfold pyIndex
  have hni : ¬ i < 0 := by omega
  simp only [hni, if_false, if_pos h0, h]

theorem binSum_cons (seq l : Nat) (ls : List Nat) :
    binSum seq (l :: ls) = ((l : Int) - (seq : Int) + 1) + binSum seq ls := by
  simp [binSum]

theorem binSum_nonneg (seq : Nat) (ls : List Nat)
    (hl : ∀ l ∈ ls, seq ≤ l) : 0 ≤ binSum seq ls := by
  induction ls with
  | nil => simp [binSum]
  | cons l ls ih =>
    have h1 : seq ≤ l := hl l (List.mem_cons_self l ls)
    have h2 : 0 ≤ binSum seq ls := ih (fun x hx => hl x (List.mem_cons_of_mem l hx))
    rw [binSum_cons]
    omega

theorem mkBinsAux_length (seq : Nat) (e : Int) (ls : List Nat) :
    (mkBinsAux seq e ls).length = ls.length := by
  induction ls generalizing e with
  | nil => rfl
  | cons l ls ih => simp [mkBinsAux, ih]

theorem mkBinsAux_cons (seq : Nat) (e : Int) (l : Nat) (ls : List Nat) :
    mkBinsAux seq e (l :: ls) =
      (e + 1, e + 1 + (l : Int) - (seq : Int)) ::
        mkBinsAux seq (e + 1 + (l : Int) - (seq : Int)) ls := rfl

theorem mkBinsAux_start_lb (seq : Nat) (ls : List Nat) :
    ∀ e : Int, (∀ l ∈ ls, seq ≤ l) →
      ∀ b ∈ mkBinsAux seq e ls, e + 1 ≤ b.1 ∧ b.1 ≤ b.2 := by
  induction ls with
  | nil => intro e _ b hb; simp [mkBinsAux] at hb
  | cons l ls ih =>
    intro e hl b hb
    have hseq : (seq : Int) ≤ (l : Int) := by
      exact_mod_cast hl l (List.mem_cons_self l ls)
    rw [mkBinsAux_cons] at hb
    rcases List.mem_cons.mp hb with h | h
    · subst h; constructor
      · omega
      · simp only; omega
    · have := ih (e + 1 + (l : Int) - (seq : Int))
        (fun x hx => hl x (List.mem_cons_of_mem l hx)) b h
      omega

theorem mkBinsAux_end_ub (seq : Nat) (ls : List Nat) :
    ∀ e : Int, (∀ l ∈ ls, seq ≤ l) →
      ∀ b ∈ mkBinsAux seq e ls, b.2 ≤ e + binSum seq ls := by
  induction ls with
  | nil => intro e _ b hb; simp [mkBinsAux] at hb
  | cons l ls ih =>
    intro e hl b hb
    have hseq : (seq : Int) ≤ (l : Int) := by
      exact_mod_cast hl l (List.mem_cons_self l ls)
    have hsum : 0 ≤ binSum seq ls :=
      binSum_nonneg seq ls (fun x hx => hl x (List.mem_cons_of_mem l hx))
    rw [mkBinsAux_cons] at hb
    rw [binSum_cons]
    rcases List.mem_cons.mp hb with h | h
    · subst h; simp only; omega
    · have := ih (e + 1 + (l : Int) - (seq : Int))
        (fun x hx => hl x (List.mem_cons_of_mem l hx)) b h
      omega

theorem mkBinsAux_end_eq (seq : Nat) (ls : List Nat) :
    ∀ e : Int, ∀ i : Nat, ∀ b : Int × Int, ∀ l : Nat,
      (mkBinsAux seq e ls)[i]? = some b → ls[i]? = some l →
      b.2 = b.1 + (l : Int) - (seq : Int) := by
  induction ls with
  | nil => intro e i b l hb _; simp [mkBinsAux] at hb
  | cons x ls ih =>
    intro e i b l hb hli
    rw [mkBinsAux_cons] at hb
    cases i with
    | zero =>
      simp only [List.getElem?_cons_zero, Option.some_inj] at hb hli
      subst hb; subst hli; rfl
    | succ n =>
      simp only [List.getElem?_cons_succ] at hb hli
      exact ih _ n b l hb hli

theorem mkBinsAux_contig (seq : Nat) (ls : List Nat) :
    ∀ e : Int, ∀ i : Nat, ∀ bi bj : Int × Int,
      (mkBinsAux seq e ls)[i]? = some bi →
      (mkBinsAux seq e ls)[i + 1]? = some bj → bi.2 + 1 = bj.1 := by
  induction ls with
  | nil => intro e i bi bj hbi _; simp [mkBinsAux] at hbi
  | cons l ls ih =>
    intro e i bi bj hbi hbj
    rw [mkBinsAux_cons] at hbi hbj
    cases i with
    | zero =>
      simp only [List.getElem?_cons_zero, Option.some_inj] at hbi
      simp only [List.getElem?_cons_succ] at hbj
      cases ls with
      | nil => simp [mkBinsAux] at hbj
      | cons l2 ls2 =>
        rw [mkBinsAux_cons] at hbj
        simp only [List.getElem?_cons_zero, Option.some_inj] at hbj
        subst hbi; subst hbj; simp only
    | succ n =>
      simp only [List.getElem?_cons_succ] at hbi hbj
      exact ih _ n bi bj hbi hbj

theorem mkBinsAux_getLast (seq : Nat) (ls : List Nat) :
    ∀ e : Int, ls ≠ [] →
      ∃ b, (mkBinsAux seq e ls).getLast? = some b ∧ b.2 = e + binSum seq ls := by
  induction ls with
  | nil => intro e h; exact absurd rfl h
  | cons l ls ih =>
    intro e _
    cases ls with
    | nil =>
      refine ⟨(e + 1, e + 1 + (l : Int) - (seq : Int)), rfl, ?_⟩
      simp [binSum]; omega
    | cons l2 ls2 =>
      obtain ⟨b, hb, he⟩ := ih (e + 1 + (l : Int) - (seq : Int)) (by simp)
      refine ⟨b, ?_, ?_⟩
      · rw [mkBinsAux_cons, mkBinsAux_cons, List.getLast?_cons_cons,
          ← mkBinsAux_cons]
        exact hb
      · rw [binSum_cons, binSum_cons]
        rw [binSum_cons] at he
        omega

theorem mkBinsAux_ordered (seq : Nat) (ls : List Nat) :
    ∀ e : Int, (∀ l ∈ ls, seq ≤ l) →
      ∀ i j : Nat, ∀ bi bj : Int × Int, i < j →
        (mkBinsAux seq e ls)[i]? = some bi →
        (mkBinsAux seq e ls)[j]? = some bj → bi.2 < bj.1 := by
  induction ls with
  | nil => intro e _ i j bi bj _ hbi _; simp [mkBinsAux] at hbi
  | cons l ls ih =>
    intro e hl i j bi bj hij hbi hbj
    rw [mkBinsAux_cons] at hbi hbj
    have hltail : ∀ x ∈ ls, seq ≤ x := fun x hx => hl x (List.mem_cons_of_mem l hx)
    cases i with
    | zero =>
      cases j with
      | zero => omega
      | succ m =>
        simp only [List.getElem?_cons_zero, Option.some_inj] at hbi
        simp only [List.getElem?_cons_succ] at hbj
        have hmem : bj ∈ mkBinsAux seq (e + 1 + (l : Int) - (seq : Int)) ls :=
          List.getElem?_mem hbj
        have := mkBinsAux_start_lb seq ls (e + 1 + (l : Int) - (seq : Int))
          hltail bj hmem
        subst hbi
        simp only
        omega
    | succ n =>
      cases j with
      | zero => omega
      | succ m =>
        simp only [List.getElem?_cons_succ] at hbi hbj
        exact ih _ hltail n m bi bj (by omega) hbi hbj

theorem findBinAux_none (index : Int) (bins : List (Int × Int))
    (h : ∀ b ∈ bins, ¬ (b.1 ≤ index ∧ index ≤ b.2)) :
    ∀ k : Nat, findBinAux bins index k = none := by
  induction bins with
  | nil => intro k; rfl
  | cons b rest ih =>
    intro k
    unfold findBinAux
    rw [if_neg (h b (List.mem_cons_self b rest))]
    exact ih (fun x hx => h x (List.mem_cons_of_mem b hx)) (k + 1)

theorem findBinAux_shift (index : Int) (bins : List (Int × Int)) :
    ∀ k : Nat, findBinAux bins index k =
      (findBinAux bins index 0).map (fun p => (p.1 + k, p.2)) := by
  induction bins with
  | nil => intro k; rfl
  | cons b rest ih =>
    intro k
    by_cases h : b.1 ≤ index ∧ index ≤ b.2
    · simp [findBinAux, if_pos h]
    · simp only [findBinAux, if_neg h]
      rw [ih (k + 1), ih 1]
      cases findBinAux rest index 0 with
      | none => rfl
      | some p => simp [Option.map]; omega

theorem findBin_mkBinsAux (seq : Nat) (ls : List Nat) :
    ∀ e index : Int, e < index → index ≤ e + binSum seq ls →
      ∃ i b, (mkBinsAux seq e ls)[i]? = some b ∧ b.1 ≤ index ∧ index ≤ b.2 ∧
        findBin (mkBinsAux seq e ls) index = some (i, index - b.1) := by
  induction ls with
  | nil =>
    intro e index h1 h2
    simp [binSum] at h2
    omega
  | cons l ls ih =>
    intro e index h1 h2
    rw [mkBinsAux_cons]
    by_cases h : (e + 1 : Int) ≤ index ∧ index ≤ e + 1 + (l : Int) - (seq : Int)
    · refine ⟨0, (e + 1, e + 1 + (l : Int) - (seq : Int)), by simp, h.1, h.2, ?_⟩
      unfold findBin findBinAux
      rw [if_pos]
      exact h
    · have hgt : e + 1 + (l : Int) - (seq : Int) < index := by omega
      have h2t : index ≤ e + 1 + (l : Int) - (seq : Int) + binSum seq ls := by
        rw [binSum_cons] at h2; omega
      obtain ⟨i, b, hb, hb1, hb2, hfind⟩ :=
        ih (e + 1 + (l : Int) - (seq : Int)) index hgt h2t
      refine ⟨i + 1, b, by simpa using hb, hb1, hb2, ?_⟩
      unfold findBin findBinAux
      rw [if_neg h]
      rw [findBinAux_shift]
      unfold findBin at hfind
      rw [hfind]
      rfl

theorem kittiInit_fields (g c : Config) (st : KittiState)
    (h : kittiInit (some g) c = Except.ok st) :
    ∃ b, (mkBinsAux g.sequenceSize (-1) (g.sessions.map Session.len)).getLast?
        = some b ∧
      st.dataset = g.sessions ∧
      st.length_each_drive = g.sessions.map Session.len ∧
      st.bins = mkBinsAux g.sequenceSize (-1) (g.sessions.map Session.len) ∧
      st.seq_size = g.sequenceSize ∧
      st.length = b.2 + 1 := by
  unfold kittiInit at h
  simp only at h
  cases hlast : (mkBinsAux g.sequenceSize (-1) (g.sessions.map Session.len)).getLast? with
  | none => rw [hlast] at h; exact absurd h (by simp)
  | some b =>
    rw [hlast] at h
    injection h with h2
    subst h2
    exact ⟨b, rfl, rfl, rfl, rfl, rfl, rfl⟩

theorem kittiInit_length_binSum (g c : Config) (st : KittiState)
    (h : kittiInit (some g) c = Except.ok st) :
    st.length = binSum g.sequenceSize (g.sessions.map Session.len) ∧
    g.sessions.map Session.len ≠ [] := by
  obtain ⟨b, hlast, _, _, _, _, hlen⟩ := kittiInit_fields g c st h
  have hne : g.sessions.map Session.len ≠ [] := by
    intro hcontra
    rw [hcontra] at hlast
    simp [mkBinsAux] at hlast
  obtain ⟨b2, hlast2, he⟩ :=
    mkBinsAux_getLast g.sequenceSize (g.sessions.map Session.len) (-1) hne
  rw [hlast] at hlast2
  injection hlast2 with hb2
  subst hb2
  constructor
  · omega
  · exact hne

/-- A concrete session of n scans, scan timestamps 10*i, and no IMU
samples; decoders are trivial concrete functions. -/
def mkSession (n : Nat) : Session :=
  { velo_files := List.range n
    oxts_files := List.range n
    timestamps_velo := (List.range n).map (fun i => 10 * (i : Int))
    timestamps_imu := []
    decode_velo := fun f => [(f : Int)]
    load_velo_file := fun f => [(f : Int)]
    decode_oxt := fun f => ⟨⟨(f : Int), 0, 0, 0, 0, 0⟩, [(f : Int)]⟩ }

/-- Configuration with two sessions of 5 and 4 scans and window length 3. -/
def cfg54 : Config := { sequenceSize := 3, sessions := [mkSession 5, mkSession 4] }

/-- The dataset state Kitti.__init__ builds from `cfg54`. -/
def st54 : KittiState :=
  { dataset := cfg54.sessions
    length_each_drive := [5, 4]
    bins := [(0, 2), (3, 4)]
    seq_size := 3
    length := 5 }

theorem cfg54_sessions_long : ∀ s ∈ cfg54.sessions, cfg54.sequenceSize ≤ s.len := by
  intro s hs
  simp only [cfg54, List.mem_cons, List.not_mem_nil, or_false] at hs
  rcases hs with rfl | rfl <;> decide

/-- C3: after construction from sessions each of length ≥ window_length,
the first bin starts at 0, each bin's end is its start + length − seq_size,
consecutive bins are contiguous, and the total length is the sum over
sessions of (length − seq_size + 1). -/
theorem kitti_bins_invariants (g c : Config) (st : KittiState)
    (hl : ∀ s ∈ g.sessions, g.sequenceSize ≤ s.len)
    (hinit : kittiInit (some g) c = Except.ok st) :
    (∃ b0 : Int × Int, st.bins[0]? = some b0 ∧ b0.1 = 0) ∧
    (∀ (i : Nat) (b : Int × Int) (l : Nat),
      st.bins[i]? = some b → st.length_each_drive[i]? = some l →
      b.2 = b.1 + (l : Int) - (st.seq_size : Int)) ∧
    (∀ (i : Nat) (bi bj : Int × Int),
      st.bins[i]? = some bi → st.bins[i + 1]? = some bj →
      bi.2 + 1 = bj.1) ∧
    st.length = binSum st.seq_size st.length_each_drive := by
  obtain ⟨b, hlast, hds, hld, hbins, hseq, hlen⟩ := kittiInit_fields g c st hinit
  obtain ⟨hlenb, hne⟩ := kittiInit_length_binSum g c st hinit
  refine ⟨?_, ?_, ?_, ?_⟩
  · cases hmatch : g.sessions.map Session.len with
    | nil => exact absurd hmatch hne
    | cons l ls =>
      refine ⟨(-1 + 1, -1 + 1 + (l : Int) - (g.sequenceSize : Int)), ?_, by norm_num⟩
      rw [hbins, hmatch, mkBinsAux_cons]
      simp
  · intro i bi l hb hli
    rw [hbins] at hb
    rw [hld] at hli
    rw [hseq]
    exact mkBinsAux_end_eq g.sequenceSize (g.sessions.map Session.len) (-1) i bi l hb hli
  · intro i bi bj hbi hbj
    rw [hbins] at hbi hbj
    exact mkBinsAux_contig g.sequenceSize (g.sessions.map Session.len) (-1) i bi bj hbi hbj
  · rw [hld, hseq]
    exact hlenb

/-- Witness for C3 at the concrete two-session configuration of the claim:
session lengths 5 and 4, window length 3, bins [0,2] and [3,4], total 5. -/
theorem kitti_bins_invariants_witness :
    (∀ s ∈ cfg54.sessions, cfg54.sequenceSize ≤ s.len) ∧
    kittiInit (some cfg54) cfg54 = Except.ok st54 ∧
    st54.bins = [(0, 2), (3, 4)] ∧ st54.length = 5 ∧
    st54.length = binSum st54.seq_size st54.length_each_drive :=
  ⟨cfg54_sessions_long, rfl, rfl, rfl,
    (kitti_bins_invariants cfg54 cfg54 st54 cfg54_sessions_long rfl).2.2.2⟩

/-- C1: for every global index in [0, total_length) on a dataset whose
sessions all have length ≥ the window length, Kitti.__getitem__ resolves
the index to exactly one (drive, local offset) with
0 ≤ offset ≤ length − seq_size, and returns that drive's window
`get_data(offset, seq_size)`. -/
theorem kitti_getitem_resolution (g c : Config) (st : KittiState) (index : Int)
    (hl : ∀ s ∈ g.sessions, g.sequenceSize ≤ s.len)
    (hinit : kittiInit (some g) c = Except.ok st)
    (h0 : 0 ≤ index) (h1 : index < st.length) :
    ∃ (i : Nat) (b : Int × Int), st.bins[i]? = some b ∧
      b.1 ≤ index ∧ index ≤ b.2 ∧
      (∀ (j : Nat) (bj : Int × Int), st.bins[j]? = some bj →
        bj.1 ≤ index → index ≤ bj.2 → j = i) ∧
      0 ≤ index - b.1 ∧
      (∃ l : Nat, st.length_each_drive[i]? = some l ∧
        index - b.1 ≤ (l : Int) - (st.seq_size : Int)) ∧
      ∃ ds, st.dataset[i]? = some ds ∧
        kittiGetitem st index = (get_data ds (index - b.1) st.seq_size).map some := by
  obtain ⟨blast, hlast, hds, hld, hbins, hseq, hlen⟩ := kittiInit_fields g c st hinit
  obtain ⟨hlenb, hne⟩ := kittiInit_length_binSum g c st hinit
  have hlmap : ∀ l ∈ g.sessions.map Session.len, g.sequenceSize ≤ l := by
    intro l hlm
    obtain ⟨s, hs, rfl⟩ := List.mem_map.mp hlm
    exact hl s hs
  have h2 : index ≤ -1 + binSum g.sequenceSize (g.sessions.map Session.len) := by
    rw [hlenb] at h1; omega
  obtain ⟨i, b, hb, hb1, hb2, hfind⟩ :=
    findBin_mkBinsAux g.sequenceSize (g.sessions.map Session.len) (-1) index
      (by omega) h2
  have hilt : i < (mkBinsAux g.sequenceSize (-1) (g.sessions.map Session.len)).length := by
    by_contra hcontra
    rw [List.getElem?_eq_none (Nat.le_of_not_lt hcontra)] at hb
    exact Option.noConfusion hb
  have hillen : i < (g.sessions.map Session.len).length := by
    rw [mkBinsAux_length] at hilt; exact hilt
  have hilses : i < g.sessions.length := by
    rw [List.length_map] at hillen; exact hillen
  refine ⟨i, b, by rw [hbins]; exact hb, hb1, hb2, ?_, by omega, ?_, ?_⟩
  · intro j bj hbj hj1 hj2
    rw [hbins] at hbj
    rcases lt_trichotomy j i with hlt | heq | hgt
    · have := mkBinsAux_ordered g.sequenceSize (g.sessions.map Session.len)
        (-1) hlmap j i bj b hlt hbj hb
      omega
    · exact heq
    · have := mkBinsAux_ordered g.sequenceSize (g.sessions.map Session.len)
        (-1) hlmap i j b bj hgt hb hbj
      omega
  · refine ⟨(g.sessions.map Session.len)[i], ?_, ?_⟩
    · rw [hld]
      exact List.getElem?_eq_getElem hillen
    · have hend := mkBinsAux_end_eq g.sequenceSize (g.sessions.map Session.len)
        (-1) i b ((g.sessions.map Session.len)[i]) hb
        (List.getElem?_eq_getElem hillen)
      rw [hseq]
      omega
  · refine ⟨g.sessions[i], ?_, ?_⟩
    · rw [hds]
      exact List.getElem?_eq_getElem hilses
    · unfold kittiGetitem
      rw [hbins, hfind]
      simp only [hds, List.getElem?_eq_getElem hilses]

/-- Witness for C1: on the two-session dataset (lengths 5 and 4, window
length 3) global index 3 resolves uniquely and is served by the second
drive at local offset 0. -/
theorem kitti_getitem_resolution_witness :
    (∀ s ∈ cfg54.sessions, cfg54.sequenceSize ≤ s.len) ∧
    kittiInit (some cfg54) cfg54 = Except.ok st54 ∧
    (0 : Int) ≤ 3 ∧ (3 : Int) < st54.length ∧
    (∃ (i : Nat) (b : Int × Int), st54.bins[i]? = some b ∧
      b.1 ≤ 3 ∧ (3 : Int) ≤ b.2 ∧
      (∀ (j : Nat) (bj : Int × Int), st54.bins[j]? = some bj →
        bj.1 ≤ 3 → (3 : Int) ≤ bj.2 → j = i) ∧
      (0 : Int) ≤ 3 - b.1 ∧
      (∃ l : Nat, st54.length_each_drive[i]? = some l ∧
        (3 : Int) - b.1 ≤ (l : Int) - (st54.seq_size : Int)) ∧
      ∃ ds, st54.dataset[i]? = some ds ∧
        kittiGetitem st54 3 = (get_data ds (3 - b.1) st54.seq_size).map some) :=
  ⟨cfg54_sessions_long, rfl, by norm_num, by norm_num [st54],
    kitti_getitem_resolution cfg54 cfg54 st54 3 cfg54_sessions_long rfl
      (by norm_num) (by norm_num [st54])⟩

/-- Configuration with a single session of 5 scans and window length 3. -/
def cfg5 : Config := { sequenceSize := 3, sessions := [mkSession 5] }

/-- The dataset state Kitti.__init__ builds from `cfg5`: one bin [0,2],
total length 3. -/
def st5 : KittiState :=
  { dataset := cfg5.sessions
    length_each_drive := [5]
    bins := [(0, 2)]
    seq_size := 3
    length := 3 }

theorem cfg5_sessions_long : ∀ s ∈ cfg5.sessions, cfg5.sequenceSize ≤ s.len := by
  intro s hs
  simp only [cfg5, List.mem_cons, List.not_mem_nil, or_false] at hs
  rcases hs with rfl
  decide

/-- Counterexample to C7 as stated: on the one-session dataset of the
claim's scenario (5 scans, window length 3, bins [0,2]), looking up global
index 3 does not raise any error: Kitti.__getitem__ prints a message and
returns None (modelled as a normal `Except.ok none` return), so no
OutOfRange/IndexOutOfRange failure is surfaced to the caller. -/
theorem kitti_getitem_oob_cex :
    kittiInit (some cfg5) cfg5 = Except.ok st5 ∧
    kittiGetitem st5 3 = Except.ok none := ⟨rfl, rfl⟩

/-- C7 amended: for every global index outside [0, total_length), the
lookup finds no bin and returns None (after printing a diagnostic),
rather than raising an out-of-range error. -/
theorem kitti_getitem_oob_returns_none (g c : Config) (st : KittiState)
    (index : Int)
    (hl : ∀ s ∈ g.sessions, g.sequenceSize ≤ s.len)
    (hinit : kittiInit (some g) c = Except.ok st)
    (hout : index < 0 ∨ st.length ≤ index) :
    kittiGetitem st index = Except.ok none := by
  obtain ⟨blast, hlast, hds, hld, hbins, hseq, hlen⟩ := kittiInit_fields g c st hinit
  obtain ⟨hlenb, hne⟩ := kittiInit_length_binSum g c st hinit
  have hlmap : ∀ l ∈ g.sessions.map Session.len, g.sequenceSize ≤ l := by
    intro l hlm
    obtain ⟨s, hs, rfl⟩ := List.mem_map.mp hlm
    exact hl s hs
  have hnone : ∀ b ∈ st.bins, ¬ (b.1 ≤ index ∧ index ≤ b.2) := by
    intro b hbmem
    rw [hbins] at hbmem
    rcases hout with hneg | hbig
    · have := mkBinsAux_start_lb g.sequenceSize (g.sessions.map Session.len)
        (-1) hlmap b hbmem
      intro hcontra
      omega
    · have := mkBinsAux_end_ub g.sequenceSize (g.sessions.map Session.len)
        (-1) hlmap b hbmem
      rw [hlenb] at hbig
      intro hcontra
      omega
  unfold kittiGetitem
  rw [show findBin st.bins index = none from findBinAux_none index st.bins hnone 0]

/-- Witness for the amended C7: index 5 lies outside [0, 3) on the
one-session dataset and the lookup returns None. -/
theorem kitti_getitem_oob_returns_none_witness :
    (∀ s ∈ cfg5.sessions, cfg5.sequenceSize ≤ s.len) ∧
    kittiInit (some cfg5) cfg5 = Except.ok st5 ∧
    ((5 : Int) < 0 ∨ st5.length ≤ 5) ∧
    kittiGetitem st5 5 = Except.ok none :=
  ⟨cfg5_sessions_long, rfl, Or.inr (by norm_num [st5]),
    kitti_getitem_oob_returns_none cfg5 cfg5 st5 5 cfg5_sessions_long rfl
      (Or.inr (by norm_num [st5]))⟩

/-- Configuration with a single session of 2 scans but window length 3:
shorter than the window. -/
def cfgShort : Config := { sequenceSize := 3, sessions := [mkSession 2] }

/-- The dataset state Kitti.__init__ builds from `cfgShort`: the
too-short session silently contributes the negative-size bin [0, -1]. -/
def stShort : KittiState :=
  { dataset := cfgShort.sessions
    length_each_drive := [2]
    bins := [(0, -1)]
    seq_size := 3
    length := 0 }

/-- C4 code behavior: constructing the dataset from a session of 2 scans
with window length 3 does not fail at all; the session silently
contributes the invalid bin [0, -1] and the total length becomes 0.  No
SessionTooShort (nor any other) error is raised. -/
theorem kitti_short_session_accepted :
    kittiInit (some cfgShort) cfgShort = Except.ok stShort ∧
    stShort.bins = [(0, -1)] ∧ stShort.length = 0 := ⟨rfl, rfl, rfl⟩

/-- A session whose only IMU timestamp (100) lies outside the time span
[0, 10) of the first two scans. -/
def sessionNoImu : Session :=
  { velo_files := [0, 1]
    oxts_files := [0, 1]
    timestamps_velo := [0, 10]
    timestamps_imu := [100]
    decode_velo := fun f => [(f : Int)]
    load_velo_file := fun f => [(f : Int)]
    decode_oxt := fun f => ⟨⟨(f : Int), 0, 0, 0, 0, 0⟩, [(f : Int)]⟩ }

/-- C5 code behavior: the window query whose interval [0, 10) contains no
IMU timestamp does not complete non-fatally: after printing the warning
and building the fallback list `[0.] * 6`, the result dictionary reads
the local variable gt, which was only ever assigned on the non-empty
branch, so the call raises UnboundLocalError instead of returning. -/
theorem get_data_empty_overlap_raises :
    get_data sessionNoImu 0 2 = Except.error PyErr.unboundLocalError := rfl

/-- C6: every window sample that get_data actually returns has as many
inertial readings as reference poses (both are maps over the same list of
decoded OXTS entries). -/
theorem get_data_imu_gt_length (s : Session) (start_index : Int)
    (length : Nat) (r : GetDataResult)
    (h : get_data s start_index length = Except.ok r) :
    r.imu.length = r.gt.length := by
  unfold get_data at h
  split at h
  · exact absurd h (by simp)
  · split at h
    · exact absurd h (by simp)
    · dsimp only at h
      split at h
      · exact absurd h (by simp)
      · split at h
        · exact absurd h (by simp)
        · injection h with h2
          subst h2
          simp

/-- A session whose window [0, 10) contains the two IMU timestamps 1 and
5, so a query succeeds. -/
def sessionWin : Session :=
  { velo_files := [0, 1]
    oxts_files := [0, 1]
    timestamps_velo := [0, 10]
    timestamps_imu := [1, 5]
    decode_velo := fun f => [(f : Int)]
    load_velo_file := fun f => [(f : Int)]
    decode_oxt := fun f => ⟨⟨(f : Int), 0, 0, 0, 0, 0⟩, [(f : Int)]⟩ }

/-- The sample returned by `get_data sessionWin 0 2`. -/
def rWin : GetDataResult :=
  { images := [[0], [1]]
    imu := [[0, 0, 0, 0, 0, 0], [1, 0, 0, 0, 0, 0]]
    gt := [[0], [1]] }

/-- Witness for C6 on a concrete successful query. -/
theorem get_data_imu_gt_length_witness :
    get_data sessionWin 0 2 = Except.ok rWin ∧
    rWin.imu.length = rWin.gt.length :=
  ⟨rfl, get_data_imu_gt_length sessionWin 0 2 rWin rfl⟩

/-- C2: for a valid window query, the IMU samples selected by get_data
are exactly the ascending indices whose timestamp t satisfies
scan_ts[start] ≤ t < scan_ts[start + wl − 1] (start inclusive, stop
exclusive). -/
theorem get_data_imu_selection (s : Session) (start wl : Nat)
    (hwl : 1 ≤ wl) (hb : start + wl ≤ s.timestamps_velo.length) :
    ∃ t0 t1 : Int,
      s.timestamps_velo[start]? = some t0 ∧
      s.timestamps_velo[start + wl - 1]? = some t1 ∧
      selectedOf s (start : Int) wl =
        Except.ok (selectIndices s.timestamps_imu t0 t1) ∧
      (∀ i : Nat, i ∈ selectIndices s.timestamps_imu t0 t1 ↔
        i < s.timestamps_imu.length ∧
        t0 ≤ s.timestamps_imu.getD i 0 ∧ s.timestamps_imu.getD i 0 < t1) ∧
      List.Sorted (· < ·) (selectIndices s.timestamps_imu t0 t1) := by
  have h0 : start < s.timestamps_velo.length := by omega
  have h1 : start + wl - 1 < s.timestamps_velo.length := by omega
  have p1 := pyIndex_nonneg s.timestamps_velo (start : Int)
    s.timestamps_velo[start] (by omega)
    (by rw [show ((start : Int)).toNat = start by omega]
        exact List.getElem?_eq_getElem h0)
  have p2 := pyIndex_nonneg s.timestamps_velo ((start : Int) + (wl : Int) - 1)
    s.timestamps_velo[start + wl - 1] (by omega)
    (by rw [show ((start : Int) + (wl : Int) - 1).toNat = start + wl - 1 by omega]
        exact List.getElem?_eq_getElem h1)
  refine ⟨s.timestamps_velo[start], s.timestamps_velo[start + wl - 1],
    List.getElem?_eq_getElem h0, List.getElem?_eq_getElem h1, ?_,
    fun i => mem_selectIndices _ _ _ i, selectIndices_sorted _ _ _⟩
  unfold selectedOf windowInterval
  rw [p1, p2]
  rfl

/-- The scenario session of the claim: scan timestamps [0,10,20,30], IMU
timestamps [1,5,9,15]. -/
def sessionScen : Session :=
  { velo_files := [0, 1, 2, 3]
    oxts_files := [0, 1, 2, 3]
    timestamps_velo := [0, 10, 20, 30]
    timestamps_imu := [1, 5, 9, 15]
    decode_velo := fun f => [(f : Int)]
    load_velo_file := fun f => [(f : Int)]
    decode_oxt := fun f => ⟨⟨(f : Int), 0, 0, 0, 0, 0⟩, [(f : Int)]⟩ }

/-- Witness for C2 on the claim's scenario: window length 2 from index 0
gives interval [0, 10), and exactly the IMU samples at timestamps 1, 5, 9
(indices 0, 1, 2) are selected; 15 is excluded. -/
theorem get_data_imu_selection_witness :
    (1 ≤ 2) ∧ (0 + 2 ≤ sessionScen.timestamps_velo.length) ∧
    (∃ t0 t1 : Int,
      sessionScen.timestamps_velo[0]? = some t0 ∧
      sessionScen.timestamps_velo[0 + 2 - 1]? = some t1 ∧
      selectedOf sessionScen ((0 : Nat) : Int) 2 =
        Except.ok (selectIndices sessionScen.timestamps_imu t0 t1) ∧
      (∀ i : Nat, i ∈ selectIndices sessionScen.timestamps_imu t0 t1 ↔
        i < sessionScen.timestamps_imu.length ∧
        t0 ≤ sessionScen.timestamps_imu.getD i 0 ∧
        sessionScen.timestamps_imu.getD i 0 < t1) ∧
      List.Sorted (· < ·) (selectIndices sessionScen.timestamps_imu t0 t1)) ∧
    selectIndices sessionScen.timestamps_imu 0 10 = [0, 1, 2] :=
  ⟨by decide, by decide,
    get_data_imu_selection sessionScen 0 2 (by decide) (by decide),
    by decide⟩

/-- C8: parsing a timestamp line whose sub-second field has nine digits
yields the line's time truncated to microsecond precision: the strptime
microsecond field is the nanosecond digit value divided by 1000, and the
absolute parsed microsecond count is the line's nanosecond count divided
by 1000. -/
theorem load_timestamp_truncates (sp : Nat) (ds : List Nat)
    (hlen : ds.length = 9) (hd : ∀ d ∈ ds, d < 10) :
    loadTimestampLine sp ds =
      { secondsPart := sp, micro := digitsToNat ds / 1000 } ∧
    parsedMicros (loadTimestampLine sp ds) = lineNanos sp ds / 1000 := by
  rcases ds with _ | ⟨d1, _ | ⟨d2, _ | ⟨d3, _ | ⟨d4, _ | ⟨d5, _ | ⟨d6, _ |
    ⟨d7, _ | ⟨d8, _ | ⟨d9, _ | ⟨d10, tail⟩⟩⟩⟩⟩⟩⟩⟩⟩⟩ <;> simp at hlen
  simp only [List.forall_mem_cons, List.forall_mem_nil, and_true] at hd
  obtain ⟨h1, h2, h3, h4, h5, h6, h7, h8, h9, -⟩ := hd
  constructor
  · simp only [loadTimestampLine, digitsToNat, newlineCode]
    norm_num
    omega
  · simp only [loadTimestampLine, parsedMicros, lineNanos, digitsToNat, newlineCode]
    norm_num
    omega

/-- Witness for C8 on a concrete line with sub-second digits
123456789 (nanoseconds): the parsed microsecond field is 123456. -/
theorem load_timestamp_truncates_witness :
    ([1, 2, 3, 4, 5, 6, 7, 8, 9] : List Nat).length = 9 ∧
    (∀ d ∈ ([1, 2, 3, 4, 5, 6, 7, 8, 9] : List Nat), d < 10) ∧
    (loadTimestampLine 7 [1, 2, 3, 4, 5, 6, 7, 8, 9] =
      { secondsPart := 7, micro := digitsToNat [1, 2, 3, 4, 5, 6, 7, 8, 9] / 1000 } ∧
     parsedMicros (loadTimestampLine 7 [1, 2, 3, 4, 5, 6, 7, 8, 9]) =
      lineNanos 7 [1, 2, 3, 4, 5, 6, 7, 8, 9] / 1000) :=
  ⟨by decide, by decide,
    load_timestamp_truncates 7 [1, 2, 3, 4, 5, 6, 7, 8, 9] (by decide) (by decide)⟩

/-- C9: Kitti.__init__ resolves the free module-level name cfg, never its
config parameter: with no module-level cfg bound, construction fails with
NameError whatever config is passed, and in every environment the result
is independent of the config argument. -/
theorem kitti_init_ignores_config (c1 c2 : Config) :
    kittiInit none c1 = Except.error PyErr.nameError ∧
    ∀ g : Option Config, kittiInit g c1 = kittiInit g c2 :=
  ⟨rfl, fun g => by cases g <;> rfl⟩

theorem pyIndex_neg {α : Type} (xs : List α) (i : Int) (v : α)
    (hneg : i < 0) (hge : -(xs.length : Int) ≤ i)
    (h : xs[((xs.length : Int) + i).toNat]? = some v) :
    pyIndex xs i = Except.ok v := by
  unfold pyIndex
  have h0 : (0 : Int) ≤ (xs.length : Int) + i := by omega
  simp only [if_pos hneg, if_pos h0, h]

/-- C10: single-scan retrieval with a negative index −N ≤ idx < 0 does
not fail: both get_velo_image and get_velo wrap around and return the
decoded data of scan N + idx. -/
theorem get_velo_negative_index (s : Session) (idx : Int)
    (h1 : -(s.velo_files.length : Int) ≤ idx) (h2 : idx < 0) :
    ∃ f, s.velo_files[((s.velo_files.length : Int) + idx).toNat]? = some f ∧
      get_velo_image s idx = Except.ok (s.decode_velo f) ∧
      get_velo s idx = Except.ok (s.load_velo_file f) := by
  have hjlt : ((s.velo_files.length : Int) + idx).toNat < s.velo_files.length := by
    omega
  refine ⟨s.velo_files[((s.velo_files.length : Int) + idx).toNat],
    List.getElem?_eq_getElem hjlt, ?_, ?_⟩
  · unfold get_velo_image
    rw [pyIndex_neg s.velo_files idx _ h2 h1 (List.getElem?_eq_getElem hjlt)]
    rfl
  · unfold get_velo
    rw [pyIndex_neg s.velo_files idx _ h2 h1 (List.getElem?_eq_getElem hjlt)]
    rfl

/-- Witness for C10: on the four-scan scenario session, index −1 returns
the decoded data of scan 3. -/
theorem get_velo_negative_index_witness :
    (-(sessionScen.velo_files.length : Int) ≤ -1) ∧ ((-1 : Int) < 0) ∧
    (∃ f, sessionScen.velo_files[((sessionScen.velo_files.length : Int) + (-1)).toNat]?
        = some f ∧
      get_velo_image sessionScen (-1) = Except.ok (sessionScen.decode_velo f) ∧
      get_velo sessionScen (-1) = Except.ok (sessionScen.load_velo_file f)) :=
  ⟨by decide, by decide, get_velo_negative_index sessionScen (-1) (by decide) (by decide)⟩
